import Mathlib

/-!
Verification of the rushstack operation-metadata and plugin logic.

The filesystem-effecting TypeScript code is shallowly embedded: the
filesystem is a partial map from path strings to file entries, fallible
operations return `Except`, and async sequencing becomes explicit state
passing (the relevant `Async.forEachAsync` calls use the default
concurrency of 1, i.e. sequential iteration).
-/

namespace Rushstack

/-- Model of a JavaScript error as classified by `FileSystem.isNotExistError`:
the only attribute the embedded code inspects is whether the error is a
file-not-found (ENOENT/ENOTDIR) error. -/
structure JsError where
  isNotExist : Bool
deriving DecidableEq, Repr

/-- A file in the modelled filesystem: either readable content, or a file
whose access raises a non-not-exist error (e.g. EACCES). A path absent from
the map raises a not-exist error on access. -/
inductive FileEntry where
  | content : String → FileEntry
  | accessError : FileEntry
deriving DecidableEq, Repr

/-- The filesystem state: a partial map from paths to entries. -/
def Fs : Type := String → Option FileEntry

/-- Writing a file: total update of the map. -/
def Fs.update (fs : Fs) (p : String) (e : FileEntry) : Fs :=
  fun q => if q = p then some e else fs q

/-- `FileSystem.readFileAsync`: content on success, not-exist error for a
missing path, other error for an unreadable entry. -/
def readFileAsync (fs : Fs) (p : String) : Except JsError String :=
  match fs p with
  | none => .error ⟨true⟩
  | some .accessError => .error ⟨false⟩
  | some (.content s) => .ok s

/-- `FileSystem.copyFileAsync`: read the source, then write the destination. -/
def copyFileAsync (fs : Fs) (sourcePath destinationPath : String) : Except JsError Fs :=
  match readFileAsync fs sourcePath with
  | .error e => .error e
  | .ok s => .ok (fs.update destinationPath (.content s))

/-- `FileSystem.exists`: whether the path is present. -/
def fsExists (fs : Fs) (p : String) : Bool :=
  (fs p).isSome

/-- The body of the `Async.forEachAsync` loop in `saveAsync`: copy one file,
swallowing only not-exist errors (`if (!FileSystem.isNotExistError(e)) throw e`). -/
def tryCopyIgnoreMissing (fs : Fs) (sourcePath destinationPath : String) :
    Except JsError Fs :=
  match copyFileAsync fs sourcePath destinationPath with
  | .ok fs' => .ok fs'
  | .error e => if e.isNotExist then .ok fs else .error e

/-- `TerminalChunkKind` from `@rushstack/terminal`. -/
inductive TerminalChunkKind where
  | Stdout
  | Stderr
deriving DecidableEq, Repr

/-- `TerminalProviderSeverity` (the severities the embedded code uses). -/
inductive TerminalProviderSeverity where
  | log
  | error
deriving DecidableEq, Repr

/-- `ITerminalChunk`: a captured output chunk `{kind, text}`. -/
structure ITerminalChunk where
  kind : TerminalChunkKind
  text : String
deriving DecidableEq, Repr

/-- `RushConstants.projectRushFolderName` (value documented by the source's
own doc comment examples, e.g. `.rush/temp/operation/_phase_build/all.log`). -/
def projectRushFolderName : String := ".rush"

/-- `RushConstants.rushTempFolderName` (value documented by the source's own
doc comment examples). -/
def rushTempFolderName : String := "temp"

/-- `normalizeNameForLogFilenameIdentifiers`, first step:
`name.replace(/ /g, '')` removes every space character. -/
def removeSpaces (name : List Char) : List Char :=
  name.filter (fun c => c ≠ ' ')

/-- Whether a character matches the regex class `[a-zA-Z0-9]`. -/
def isAsciiAlnum (c : Char) : Bool :=
  (('a' ≤ c && c ≤ 'z') || ('A' ≤ c && c ≤ 'Z') || ('0' ≤ c && c ≤ '9'))

/-- `normalizeNameForLogFilenameIdentifiers`, second step:
`.replace(/[^a-zA-Z0-9]/g, '_')` replaces every character outside
`[a-zA-Z0-9]` with an underscore. -/
def replaceNonAlnum (name : List Char) : List Char :=
  name.map (fun c => if isAsciiAlnum c then c else '_')

/-- `normalizeNameForLogFilenameIdentifiers(name)`:
`name.replace(/ /g, '').replace(/[^a-zA-Z0-9]/g, '_')`. -/
def normalizeNameForLogFilenameIdentifiers (name : String) : String :=
  String.mk (replaceNonAlnum (removeSpaces name.data))

/-- `IOperationMetaData`: the record passed to `saveAsync`. Numbers are
modelled as rationals (`durationInSeconds * 1000` in the source is exact
decimal arithmetic at this granularity). -/
structure IOperationMetaData where
  durationInSeconds : ℚ
  logPath : String
  errorLogPath : String
  logChunksPath : String
  cobuildContextId : Option String
  cobuildRunnerId : Option String

/-- `IOperationStateJson`: the persisted state-file record. -/
structure IOperationStateJson where
  nonCachedDurationMs : ℚ
  cobuildContextId : Option String
  cobuildRunnerId : Option String
deriving DecidableEq

/-- The path-relevant state of an `OperationMetadataManager` instance:
the destination paths computed by its constructor. -/
structure OperationMetadataManager where
  metadataFolder : String
  logPath : String
  errorLogPath : String
  logChunksPath : String
deriving Repr

/-- The `OperationMetadataManager` constructor: computes the metadata folder
`.rush/temp/operation/<logFilenameIdentifier>` and the absolute destination
paths `<projectFolder>/<metadataFolder>/{all.log,error.log,log-chunks.jsonl}`. -/
def mkOperationMetadataManager (projectFolder logFilenameIdentifier : String) :
    OperationMetadataManager :=
  let metadataFolder : String :=
    projectRushFolderName ++ "/" ++ rushTempFolderName ++ "/operation/" ++ logFilenameIdentifier
  { metadataFolder := metadataFolder
    logPath := projectFolder ++ "/" ++ metadataFolder ++ "/all.log"
    errorLogPath := projectFolder ++ "/" ++ metadataFolder ++ "/error.log"
    logChunksPath := projectFolder ++ "/" ++ metadataFolder ++ "/log-chunks.jsonl" }

/-- The copy loop of `saveAsync`: sequentially copy the log, error-log and
log-chunks files into the metadata folder, each copy swallowing only
not-exist errors. -/
def saveCopyPhase (fs : Fs) (mgr : OperationMetadataManager) (md : IOperationMetaData) :
    Except JsError Fs :=
  match tryCopyIgnoreMissing fs md.logPath mgr.logPath with
  | .error e => .error e
  | .ok fs1 =>
    match tryCopyIgnoreMissing fs1 md.errorLogPath mgr.errorLogPath with
    | .error e => .error e
    | .ok fs2 => tryCopyIgnoreMissing fs2 md.logChunksPath mgr.logChunksPath

/-- `OperationMetadataManager.saveAsync`: writes the state file
`{nonCachedDurationMs: durationInSeconds * 1000, cobuildContextId,
cobuildRunnerId}`, then runs the copy loop. Returns the state-file record
written together with the outcome of the copy loop. (The state file lives
at a fourth path in the metadata folder and is kept as a separate component
of the result.) -/
def saveAsync (fs : Fs) (mgr : OperationMetadataManager) (md : IOperationMetaData) :
    IOperationStateJson × Except JsError Fs :=
  let state : IOperationStateJson :=
    { nonCachedDurationMs := md.durationInSeconds * 1000
      cobuildContextId := md.cobuildContextId
      cobuildRunnerId := md.cobuildRunnerId }
  (state, saveCopyPhase fs mgr md)

/-- JavaScript `string.split('\n')` on the character list: every newline
separates two (possibly empty) parts. -/
def splitCharsOnNL : List Char → List (List Char)
  | [] => [[]]
  | c :: rest =>
    if c = '\n' then [] :: splitCharsOnNL rest
    else
      match splitCharsOnNL rest with
      | [] => [[c]]
      | h :: t => (c :: h) :: t

/-- JavaScript `rawLogChunks.split('\n')`: the lines of the file. -/
def splitLines (s : String) : List String :=
  (splitCharsOnNL s.data).map String.mk

/-- The chunk-collection loop of `tryRestoreAsync`: split the raw file on
newlines, skip empty lines, `JSON.parse` each remaining line. `JSON.parse`
is an external capability, passed in as `parse`; a line it rejects throws a
`SyntaxError`, which `isNotExistError` classifies as not-not-exist. -/
def collectChunks (parse : String → Option ITerminalChunk) (raw : String) :
    Except JsError (List ITerminalChunk) :=
  go (splitLines raw) []
where
  go : List String → List ITerminalChunk → Except JsError (List ITerminalChunk)
    | [], acc => .ok acc.reverse
    | line :: rest, acc =>
      if line = "" then go rest acc
      else
        match parse line with
        | none => .error ⟨false⟩
        | some c => go rest (c :: acc)

/-- The replay loop of `tryRestoreAsync`: each chunk is written to the
terminal provider, `Stderr` chunks at `error` severity, every other kind at
`log` severity. -/
def replayChunks (chunks : List ITerminalChunk) : List (String × TerminalProviderSeverity) :=
  chunks.map (fun c =>
    (c.text, if c.kind = TerminalChunkKind.Stderr then TerminalProviderSeverity.error
             else TerminalProviderSeverity.log))

/-- `restoreFromLogFile`: stream the plain log file to the terminal
(modelled as one write of the whole content), swallowing only not-exist
errors. Returns the list of `terminal.write` payloads. -/
def restoreFromLogFile (fs : Fs) (path : String) : Except JsError (List String) :=
  match readFileAsync fs path with
  | .ok data => .ok [data]
  | .error e => if e.isNotExist then .ok [] else .error e

/-- Result of `tryRestoreAsync`: the provider writes of the chunk replay,
the terminal writes of the plain-log fallback, and the filesystem after the
error-log copy. -/
structure RestoreResult where
  providerWrites : List (String × TerminalProviderSeverity)
  terminalWrites : List String
  fs : Fs

/-- The first phase of `tryRestoreAsync`: read and replay the log-chunks
file, falling back to the plain log file when it does not exist. Returns
the provider writes and the terminal writes. -/
def replayPhase (fs : Fs) (mgr : OperationMetadataManager)
    (parse : String → Option ITerminalChunk) :
    Except JsError (List (String × TerminalProviderSeverity) × List String) :=
  match readFileAsync fs mgr.logChunksPath with
  | .ok rawLogChunks =>
    match collectChunks parse rawLogChunks with
    | .ok chunks => .ok (replayChunks chunks, [])
    | .error e => .error e
  | .error e =>
    if e.isNotExist then
      match restoreFromLogFile fs mgr.logPath with
      | .ok writes => .ok ([], writes)
      | .error e' => .error e'
    else .error e

/-- The second phase of `tryRestoreAsync`: copy the stored `error.log` to
the caller's `errorLogPath`, swallowing only not-exist errors. -/
def restoreErrorLogPhase (fs : Fs) (mgr : OperationMetadataManager)
    (errorLogPath : String) : Except JsError Fs :=
  match copyFileAsync fs mgr.errorLogPath errorLogPath with
  | .ok fs' => .ok fs'
  | .error e => if e.isNotExist then .ok fs else .error e

/-- `OperationMetadataManager.tryRestoreAsync`: read the log-chunks file and
replay its chunks; if that file does not exist, fall back to replaying the
plain `all.log`; finally copy the stored `error.log` to the caller's
`errorLogPath`, swallowing only not-exist errors. Any non-not-exist error
propagates. (`stateFile.tryRestoreAsync` is external and does not affect
these observations.) -/
def tryRestoreAsync (fs : Fs) (mgr : OperationMetadataManager)
    (parse : String → Option ITerminalChunk) (errorLogPath : String) :
    Except JsError RestoreResult :=
  match replayPhase fs mgr parse with
  | .error e => .error e
  | .ok (providerWrites, terminalWrites) =>
    match restoreErrorLogPhase fs mgr errorLogPath with
    | .ok fs' => .ok ⟨providerWrites, terminalWrites, fs'⟩
    | .error e => .error e

/-- `OperationStatus` (states per the operation state machine; the enum
itself is declared outside the sampled sources, its members are those the
sampled code and the state machine use). -/
inductive OperationStatus where
  | Ready
  | Queued
  | Executing
  | Success
  | SuccessWithWarning
  | FromCache
  | NoOp
  | Skipped
  | Blocked
  | Failure
  | Cancelled
deriving DecidableEq, Repr

/-- The fields of `OperationExecutionRecord` that the
`PnpmSyncCopyOperationPlugin` hook reads: the terminal status and the
operation's associated project folder (`associatedProject` may be absent). -/
structure PnpmExecutionRecord where
  status : OperationStatus
  associatedProjectFolder : Option String

/-- The `afterExecuteOperation` tap of `PnpmSyncCopyOperationPlugin`:
returns immediately for `Skipped`, `FromCache` and `NoOp` statuses; otherwise,
when a project is associated and `<projectFolder>/node_modules/.pnpm-sync.json`
exists, performs the pnpm-sync copy. Returns the `pnpmSyncJsonPath` the copy
was invoked with, or `none` when no copy was performed. -/
def afterExecuteOperation (fs : Fs) (record : PnpmExecutionRecord) : Option String :=
  if record.status = OperationStatus.Skipped ∨ record.status = OperationStatus.FromCache ∨
      record.status = OperationStatus.NoOp then
    none
  else
    match record.associatedProjectFolder with
    | none => none
    | some projectFolder =>
      let pnpmSyncJsonPath : String := projectFolder ++ "/node_modules/.pnpm-sync.json"
      if fsExists fs pnpmSyncJsonPath then some pnpmSyncJsonPath else none

/-- A `FolderItem` as returned by `FileSystem.readFolderItemsAsync`: a named
entry that is a directory or not. -/
structure FolderItem where
  name : String
  isDirectory : Bool
deriving DecidableEq, Repr

/-- `Constants.buildCacheFolderName` (declared outside the sampled sources;
the claims depend only on it being the single allowed subfolder name). -/
def buildCacheFolderName : String := "build-cache"

/-- `ALLOWED_HEFT_DATA_FOLDER_FILES`: the empty set. -/
def ALLOWED_HEFT_DATA_FOLDER_FILES : List String := []

/-- `ALLOWED_HEFT_DATA_FOLDER_SUBFOLDERS`: only the build-cache folder. -/
def ALLOWED_HEFT_DATA_FOLDER_SUBFOLDERS : List String := [buildCacheFolderName]

/-- The loop body of `_scanHeftDataFolderAsync`: a directory is disallowed
unless its name is in `ALLOWED_HEFT_DATA_FOLDER_SUBFOLDERS`; a file is
disallowed unless its name is in `ALLOWED_HEFT_DATA_FOLDER_FILES`. -/
def isDisallowedItem (item : FolderItem) : Bool :=
  if item.isDirectory then
    !(ALLOWED_HEFT_DATA_FOLDER_SUBFOLDERS.contains item.name)
  else
    !(ALLOWED_HEFT_DATA_FOLDER_FILES.contains item.name)

/-- `ProjectValidatorPlugin._scanHeftDataFolderAsync`, taking the outcome of
`FileSystem.readFolderItemsAsync` on the project's `.heft` data folder.
Returns the number of warnings emitted: a not-exist error returns silently
(zero warnings), any other read error propagates, and otherwise exactly one
warning is emitted when at least one disallowed item was collected. -/
def scanHeftDataFolder (readResult : Except JsError (List FolderItem)) :
    Except JsError Nat :=
  match readResult with
  | .error e => if e.isNotExist then .ok 0 else .error e
  | .ok heftDataFolderContents =>
    let disallowedItemNames : List String :=
      (heftDataFolderContents.filter isDisallowedItem).map (fun item => item.name)
    .ok (if disallowedItemNames.length > 0 then 1 else 0)

/-! ## Scheduler dispatch model

The scheduler/executor itself is not among the sampled sources; the
following transition system is modelled from the spec. -/

/-- Modelled from the spec: the terminal non-blocking statuses that satisfy
a dependent ("an Operation becomes eligible the instant all of its
dependencies reach a terminal, non-blocking state"). -/
def terminalNonBlocking : OperationStatus → Bool
  | OperationStatus.Success => true
  | OperationStatus.SuccessWithWarning => true
  | OperationStatus.FromCache => true
  | OperationStatus.NoOp => true
  | OperationStatus.Skipped => true
  | _ => false

/-- A scheduler state: each operation (identified by an index) has a status. -/
def SchedState : Type := Nat → OperationStatus

/-- Update one operation's status. -/
def SchedState.set (st : SchedState) (i : Nat) (s : OperationStatus) : SchedState :=
  fun j => if j = i then s else st j

/-- Modelled from the spec: the scheduler/executor transition relation over
operation statuses (the scheduler and execution-record state machine are
declared outside the sampled sources). `deps i` are the dependency indices
of operation `i`. Transitions follow §4.2/§4.3: queueing a ready operation,
dispatching a queued one only when every dependency is terminal
non-blocking, a runner outcome for an executing one, direct resolution of a
ready/queued operation to `FromCache`/`NoOp`, blocking on a failed or
cancelled dependency, and cancelling a not-yet-executing operation on abort. -/
inductive SchedStep (deps : Nat → List Nat) : SchedState → SchedState → Prop where
  | queue {st : SchedState} (i : Nat) :
      st i = OperationStatus.Ready →
      SchedStep deps st (st.set i OperationStatus.Queued)
  | dispatch {st : SchedState} (i : Nat) :
      st i = OperationStatus.Queued →
      (∀ d ∈ deps i, terminalNonBlocking (st d)) →
      SchedStep deps st (st.set i OperationStatus.Executing)
  | finish {st : SchedState} (i : Nat) (outcome : OperationStatus) :
      st i = OperationStatus.Executing →
      (outcome = OperationStatus.Success ∨ outcome = OperationStatus.SuccessWithWarning ∨
        outcome = OperationStatus.Failure) →
      SchedStep deps st (st.set i outcome)
  | resolveWithoutExecuting {st : SchedState} (i : Nat) (outcome : OperationStatus) :
      (st i = OperationStatus.Ready ∨ st i = OperationStatus.Queued) →
      (outcome = OperationStatus.FromCache ∨ outcome = OperationStatus.NoOp) →
      SchedStep deps st (st.set i outcome)
  | block {st : SchedState} (i : Nat) (d : Nat) :
      (st i = OperationStatus.Ready ∨ st i = OperationStatus.Queued) →
      d ∈ deps i →
      (st d = OperationStatus.Failure ∨ st d = OperationStatus.Cancelled) →
      SchedStep deps st (st.set i OperationStatus.Blocked)
  | cancel {st : SchedState} (i : Nat) :
      (st i = OperationStatus.Ready ∨ st i = OperationStatus.Queued) →
      SchedStep deps st (st.set i OperationStatus.Cancelled)

/-- Modelled from the spec: an initial scheduler state assigns every
operation `Ready` or `Skipped` (`Skipped` "is assigned before scheduling
begins"). -/
def SchedInit (st : SchedState) : Prop :=
  ∀ i, st i = OperationStatus.Ready ∨ st i = OperationStatus.Skipped

/-- States reachable from an initial state by scheduler steps. -/
inductive SchedReachable (deps : Nat → List Nat) : SchedState → Prop where
  | init (st : SchedState) : SchedInit st → SchedReachable deps st
  | step {st st' : SchedState} :
      SchedReachable deps st → SchedStep deps st st' → SchedReachable deps st'

/-! ## Cobuild claim model

The cobuild coordinator is not among the sampled sources; the following is
modelled from the spec. -/

/-- Modelled from the spec: the state of a cobuild claim record,
`state ∈ {unclaimed, claimed, completed}` (unclaimed = absent record). -/
inductive ClaimState where
  | claimed
  | completed
deriving DecidableEq, Repr

/-- Modelled from the spec: the claim record for one (contextId,
operationKey), held in the shared store; `none` means unclaimed. -/
structure ClaimRecord where
  runnerId : String
  state : ClaimState
deriving DecidableEq, Repr

/-- Result of `tryClaim`. -/
inductive ClaimResult where
  | Claimed
  | AlreadyClaimed
  | AlreadyCompleted
deriving DecidableEq, Repr

/-- Modelled from the spec: `tryClaim(contextId, operationKey, runnerId)` as
an atomic compare-and-set against the shared store entry for that key: the
claim succeeds only if no `claimed`/`completed` record exists. Returns the
result and the updated store entry. -/
def tryClaim (store : Option ClaimRecord) (runnerId : String) :
    ClaimResult × Option ClaimRecord :=
  match store with
  | none => (ClaimResult.Claimed, some ⟨runnerId, ClaimState.claimed⟩)
  | some record =>
    match record.state with
    | ClaimState.claimed => (ClaimResult.AlreadyClaimed, store)
    | ClaimState.completed => (ClaimResult.AlreadyCompleted, store)

/-- N concurrent `tryClaim` calls, linearized by the store's atomic
compare-and-set: the calls take effect in some serial order. Returns each
runner's result, in that order. -/
def runTryClaims (store : Option ClaimRecord) : List String → List ClaimResult
  | [] => []
  | runnerId :: rest =>
    let (result, store') := tryClaim store runnerId
    result :: runTryClaims store' rest

/-! ## Helper lemmas -/

/-- The effect of one `saveAsync` copy step on the filesystem when the
source is readable or missing: copy the content, or leave the state alone. -/
def copyStep (fs : Fs) (src dst : String) : Fs :=
  match fs src with
  | some (.content s) => fs.update dst (.content s)
  | _ => fs

theorem tryCopyIgnoreMissing_ok (fs : Fs) (src dst : String)
    (h : fs src ≠ some FileEntry.accessError) :
    tryCopyIgnoreMissing fs src dst = .ok (copyStep fs src dst) := by
  unfold tryCopyIgnoreMissing copyFileAsync readFileAsync copyStep
  cases hs : fs src with
  | none => rfl
  | some entry =>
    cases entry with
    | content s => rfl
    | accessError => exact absurd hs h

theorem tryCopyIgnoreMissing_error (fs : Fs) (src dst : String) (e : JsError)
    (h : tryCopyIgnoreMissing fs src dst = .error e) :
    e.isNotExist = false := by
  unfold tryCopyIgnoreMissing copyFileAsync readFileAsync at h
  cases hs : fs src with
  | none => rw [hs] at h; simp at h
  | some entry =>
    cases entry with
    | content s => rw [hs] at h; simp at h
    | accessError =>
      rw [hs] at h
      simp at h
      subst e
      rfl

theorem Fs.update_same (fs : Fs) (p : String) (e : FileEntry) :
    fs.update p e p = some e := by
  simp [Fs.update]

theorem Fs.update_other (fs : Fs) (p q : String) (e : FileEntry) (h : q ≠ p) :
    fs.update p e q = fs q := by
  simp [Fs.update, h]

theorem copyStep_other (fs : Fs) (src dst q : String) (h : q ≠ dst) :
    copyStep fs src dst q = fs q := by
  unfold copyStep
  cases fs src with
  | none => rfl
  | some entry =>
    cases entry with
    | content s => exact Fs.update_other fs dst q _ h
    | accessError => rfl

theorem copyStep_dst (fs : Fs) (src dst : String) :
    copyStep fs src dst dst =
      (match fs src with
        | some (.content s) => some (.content s)
        | _ => fs dst) := by
  unfold copyStep
  cases fs src with
  | none => rfl
  | some entry =>
    cases entry with
    | content s => exact Fs.update_same fs dst _
    | accessError => rfl

theorem copyStep_no_accessError (fs : Fs) (src dst q : String)
    (h : fs q ≠ some FileEntry.accessError) :
    copyStep fs src dst q ≠ some FileEntry.accessError := by
  unfold copyStep
  cases fs src with
  | none => exact h
  | some entry =>
    cases entry with
    | content s =>
      show fs.update dst (FileEntry.content s) q ≠ some FileEntry.accessError
      by_cases hq : q = dst
      · subst hq; rw [Fs.update_same]; simp
      · rw [Fs.update_other fs dst q _ hq]; exact h
    | accessError => exact h

theorem readFileAsync_none (fs : Fs) (p : String) (h : fs p = none) :
    readFileAsync fs p = .error ⟨true⟩ := by
  unfold readFileAsync
  rw [h]

theorem readFileAsync_content (fs : Fs) (p s : String)
    (h : fs p = some (FileEntry.content s)) :
    readFileAsync fs p = .ok s := by
  unfold readFileAsync
  rw [h]

/-- Strings with a common prefix and suffixes of different lengths differ. -/
theorem append_ne_of_length_ne (s t u : String) (h : t.length ≠ u.length) :
    s ++ t ≠ s ++ u := by
  intro heq
  apply h
  have := congrArg String.length heq
  simpa [String.length_append] using this

/-! ## Claims -/

/-- C9: `normalizeNameForLogFilenameIdentifiers` removes every space,
replaces every remaining character outside `[a-zA-Z0-9]` with an
underscore, and therefore returns a string containing only ASCII letters,
digits and underscores. -/
theorem normalizeName_only_word_characters (name : String) :
    (normalizeNameForLogFilenameIdentifiers name).data =
      (name.data.filter (fun c => c ≠ ' ')).map
        (fun c => if isAsciiAlnum c then c else '_') ∧
    ∀ c ∈ (normalizeNameForLogFilenameIdentifiers name).data,
      isAsciiAlnum c = true ∨ c = '_' := by
  constructor
  · rfl
  · intro c hc
    simp only [normalizeNameForLogFilenameIdentifiers, replaceNonAlnum,
      List.mem_map] at hc
    obtain ⟨a, -, ha⟩ := hc
    by_cases h : isAsciiAlnum a
    · left; rw [← ha]; simp [h]
    · right; rw [← ha]; simp [h]

/-- Witness for C9 at a concrete name. -/
theorem normalizeName_only_word_characters_witness :
    isAsciiAlnum '_' = true ∨ '_' = '_' :=
  (normalizeName_only_word_characters "a b!").2 '_' (by decide)

/-- C4: the state record persisted by `saveAsync` carries
`nonCachedDurationMs = 1000 * durationInSeconds` and the cobuild
identifiers unchanged. -/
theorem saveAsync_persists_state (fs : Fs) (mgr : OperationMetadataManager)
    (md : IOperationMetaData) :
    (saveAsync fs mgr md).1.nonCachedDurationMs = 1000 * md.durationInSeconds ∧
    (saveAsync fs mgr md).1.cobuildContextId = md.cobuildContextId ∧
    (saveAsync fs mgr md).1.cobuildRunnerId = md.cobuildRunnerId := by
  refine ⟨?_, rfl, rfl⟩
  show md.durationInSeconds * 1000 = 1000 * md.durationInSeconds
  exact mul_comm _ _

/-- C10: scanning the `.heft` data folder returns silently (zero warnings)
when the folder does not exist, and otherwise emits exactly one warning iff
the folder holds a disallowed item — every file is disallowed and the only
allowed subfolder is the build-cache folder. -/
theorem scanHeftDataFolder_behaviour :
    scanHeftDataFolder (Except.error ⟨true⟩) = Except.ok 0 ∧
    ∀ items : List FolderItem,
      scanHeftDataFolder (Except.ok items) =
        Except.ok (if items.any (fun item =>
            !item.isDirectory || (item.name != buildCacheFolderName)) then 1 else 0) := by
  constructor
  · rfl
  · intro items
    have hbeq : ∀ s t : String, decide (s = t) = (s == t) := by
      intro s t
      rw [Bool.eq_iff_iff]
      simp
    have hpt : ∀ item : FolderItem, isDisallowedItem item =
        (!item.isDirectory || (item.name != buildCacheFolderName)) := by
      intro item
      cases hd : item.isDirectory <;>
        simp [isDisallowedItem, hd, ALLOWED_HEFT_DATA_FOLDER_SUBFOLDERS,
          ALLOWED_HEFT_DATA_FOLDER_FILES, List.contains, bne, hbeq]
    unfold scanHeftDataFolder
    dsimp only
    congr 1
    have hcond : 0 < ((items.filter isDisallowedItem).map FolderItem.name).length ↔
        items.any (fun item =>
          !item.isDirectory || (item.name != buildCacheFolderName)) = true := by
      rw [List.length_map, List.length_pos]
      constructor
      · intro hne
        rw [List.any_eq_true]
        obtain ⟨x, hx⟩ := List.exists_mem_of_ne_nil _ hne
        have hmem := List.mem_filter.mp hx
        exact ⟨x, hmem.1, by rw [← hpt]; exact hmem.2⟩
      · intro hany
        obtain ⟨x, hxmem, hxp⟩ := List.any_eq_true.mp hany
        intro hnil
        have : x ∈ items.filter isDisallowedItem :=
          List.mem_filter.mpr ⟨hxmem, by rw [hpt]; exact hxp⟩
        rw [hnil] at this
        cases this
    exact if_congr hcond rfl rfl

/-- C7 helper: once a record is present in the store, every subsequent
`tryClaim` observes `AlreadyClaimed` or `AlreadyCompleted`. -/
theorem runTryClaims_after_claim (record : ClaimRecord) (runners : List String) :
    ∀ r ∈ runTryClaims (some record) runners,
      r = ClaimResult.AlreadyClaimed ∨ r = ClaimResult.AlreadyCompleted := by
  induction runners with
  | nil => intro r hr; simp [runTryClaims] at hr
  | cons a rest ih =>
    intro r hr
    cases hs : record.state with
    | claimed =>
      have heq : runTryClaims (some record) (a :: rest) =
          ClaimResult.AlreadyClaimed :: runTryClaims (some record) rest := by
        simp [runTryClaims, tryClaim, hs]
      rw [heq] at hr
      rcases List.mem_cons.mp hr with h | h
      · exact Or.inl h
      · exact ih r h
    | completed =>
      have heq : runTryClaims (some record) (a :: rest) =
          ClaimResult.AlreadyCompleted :: runTryClaims (some record) rest := by
        simp [runTryClaims, tryClaim, hs]
      rw [heq] at hr
      rcases List.mem_cons.mp hr with h | h
      · exact Or.inr h
      · exact ih r h

/-- C7 helper: `runTryClaims` answers every runner. -/
theorem runTryClaims_length (store : Option ClaimRecord) (runners : List String) :
    (runTryClaims store runners).length = runners.length := by
  induction runners generalizing store with
  | nil => rfl
  | cons a rest ih => simp [runTryClaims, ih]

/-- C7: starting from an unclaimed key, N linearized concurrent `tryClaim`
calls produce exactly one `Claimed`; each of the other N-1 calls returns
`AlreadyClaimed` or `AlreadyCompleted`. -/
theorem tryClaim_mutual_exclusion (runners : List String) (h : runners ≠ []) :
    (runTryClaims none runners).length = runners.length ∧
    (runTryClaims none runners).count ClaimResult.Claimed = 1 ∧
    ∀ r ∈ runTryClaims none runners, r ≠ ClaimResult.Claimed →
      r = ClaimResult.AlreadyClaimed ∨ r = ClaimResult.AlreadyCompleted := by
  refine ⟨runTryClaims_length none runners, ?_⟩
  cases runners with
  | nil => exact absurd rfl h
  | cons a rest =>
    have hrun : runTryClaims none (a :: rest) =
        ClaimResult.Claimed ::
          runTryClaims (some ⟨a, ClaimState.claimed⟩) rest := rfl
    rw [hrun]
    have htail := runTryClaims_after_claim ⟨a, ClaimState.claimed⟩ rest
    constructor
    · rw [List.count_cons]
      have hzero : (runTryClaims (some ⟨a, ClaimState.claimed⟩) rest).count
          ClaimResult.Claimed = 0 := by
        rw [List.count_eq_zero]
        intro hmem
        rcases htail _ hmem with h' | h' <;> cases h'
      simp [hzero]
    · intro r hr hne
      rcases List.mem_cons.mp hr with h' | h'
      · exact absurd h' hne
      · exact htail r h'

/-- Witness for C7: two racing runners, one `Claimed`, one other. -/
theorem tryClaim_mutual_exclusion_witness :
    (runTryClaims none ["runner1", "runner2"]).length = 2 ∧
    (runTryClaims none ["runner1", "runner2"]).count ClaimResult.Claimed = 1 ∧
    ∀ r ∈ runTryClaims none ["runner1", "runner2"], r ≠ ClaimResult.Claimed →
      r = ClaimResult.AlreadyClaimed ∨ r = ClaimResult.AlreadyCompleted :=
  tryClaim_mutual_exclusion ["runner1", "runner2"] (by decide)

/-- C8: the pnpm-sync `afterExecuteOperation` tap returns without copying
for `Skipped`, `FromCache` and `NoOp` records, and performs the copy exactly
when the status is none of those, a project is associated, and its
`node_modules/.pnpm-sync.json` file exists. -/
theorem afterExecuteOperation_skip_and_copy (fs : Fs) (record : PnpmExecutionRecord) :
    (record.status = OperationStatus.Skipped ∨ record.status = OperationStatus.FromCache ∨
        record.status = OperationStatus.NoOp →
      afterExecuteOperation fs record = none) ∧
    ∀ p, afterExecuteOperation fs record = some p ↔
      (record.status ≠ OperationStatus.Skipped ∧ record.status ≠ OperationStatus.FromCache ∧
        record.status ≠ OperationStatus.NoOp ∧
        ∃ projectFolder, record.associatedProjectFolder = some projectFolder ∧
          p = projectFolder ++ "/node_modules/.pnpm-sync.json" ∧ fsExists fs p = true) := by
  unfold afterExecuteOperation
  by_cases hs : record.status = OperationStatus.Skipped ∨
      record.status = OperationStatus.FromCache ∨ record.status = OperationStatus.NoOp
  · rw [if_pos hs]
    refine ⟨fun _ => rfl, fun p => ?_⟩
    constructor
    · intro h; cases h
    · rintro ⟨h1, h2, h3, -⟩
      rcases hs with h | h | h
      · exact absurd h h1
      · exact absurd h h2
      · exact absurd h h3
  · rw [if_neg hs]
    push_neg at hs
    obtain ⟨h1, h2, h3⟩ := hs
    refine ⟨fun h => absurd h (by simp [h1, h2, h3]), fun p => ?_⟩
    cases hproj : record.associatedProjectFolder with
    | none =>
      simp only [hproj]
      constructor
      · intro h; cases h
      · rintro ⟨-, -, -, pf, hpf, -⟩; cases hpf
    | some projectFolder =>
      simp only [hproj]
      by_cases hex : fsExists fs (projectFolder ++ "/node_modules/.pnpm-sync.json") = true
      · rw [if_pos hex]
        constructor
        · rintro h
          injection h with h
          subst h
          exact ⟨h1, h2, h3, projectFolder, rfl, rfl, hex⟩
        · rintro ⟨-, -, -, pf, hpf, hp, -⟩
          injection hpf with hpf
          subst hpf
          rw [hp]
      · rw [if_neg hex]
        constructor
        · intro h; cases h
        · rintro ⟨-, -, -, pf, hpf, hp, hx⟩
          injection hpf with hpf
          subst hpf
          subst hp
          exact absurd hx hex

/-- Witness for C8: a `Success` record with a present `.pnpm-sync.json`
performs the copy. -/
theorem afterExecuteOperation_skip_and_copy_witness :
    afterExecuteOperation
      (fun p => if p = "proj/node_modules/.pnpm-sync.json"
        then some (FileEntry.content "") else none)
      ⟨OperationStatus.Success, some "proj"⟩ =
      some "proj/node_modules/.pnpm-sync.json" :=
  ((afterExecuteOperation_skip_and_copy
      (fun p => if p = "proj/node_modules/.pnpm-sync.json"
        then some (FileEntry.content "") else none)
      ⟨OperationStatus.Success, some "proj"⟩).2
      "proj/node_modules/.pnpm-sync.json").mpr
    ⟨by decide, by decide, by decide, "proj", rfl, rfl, rfl⟩

/-- Counterexample for C2: a source file whose read raises a non-not-exist
error (e.g. a permission error) makes `saveAsync` propagate the exception,
so `saveAsync` does not complete for every kind of filesystem error. -/
theorem saveAsync_propagates_access_error :
    (saveAsync
      (fun p => if p = "src.log" then some FileEntry.accessError else none)
      (mkOperationMetadataManager "proj" "op")
      { durationInSeconds := 1, logPath := "src.log", errorLogPath := "err.log",
        logChunksPath := "chunks.jsonl", cobuildContextId := none,
        cobuildRunnerId := none }).2 = Except.error ⟨false⟩ := rfl

/-- C2 (amended): `saveAsync` swallows only file-not-exist errors from the
log-file copies — it never propagates a not-exist error, and when none of
the three source files raises a non-not-exist error it completes
successfully; any other filesystem error propagates to the caller. -/
theorem saveAsync_error_handling (fs : Fs) (mgr : OperationMetadataManager)
    (md : IOperationMetaData) :
    (∀ e, (saveAsync fs mgr md).2 = Except.error e → e.isNotExist = false) ∧
    (fs md.logPath ≠ some FileEntry.accessError →
      fs md.errorLogPath ≠ some FileEntry.accessError →
      fs md.logChunksPath ≠ some FileEntry.accessError →
      ∃ fs', (saveAsync fs mgr md).2 = Except.ok fs') := by
  have hproj : (saveAsync fs mgr md).2 = saveCopyPhase fs mgr md := rfl
  rw [hproj]
  constructor
  · intro e he
    unfold saveCopyPhase at he
    cases h1 : tryCopyIgnoreMissing fs md.logPath mgr.logPath with
    | error e1 =>
      simp only [h1] at he
      obtain rfl : e1 = e := by simpa using he
      exact tryCopyIgnoreMissing_error _ _ _ _ h1
    | ok fs1 =>
      simp only [h1] at he
      cases h2 : tryCopyIgnoreMissing fs1 md.errorLogPath mgr.errorLogPath with
      | error e2 =>
        simp only [h2] at he
        obtain rfl : e2 = e := by simpa using he
        exact tryCopyIgnoreMissing_error _ _ _ _ h2
      | ok fs2 =>
        simp only [h2] at he
        exact tryCopyIgnoreMissing_error _ _ _ _ he
  · intro hl herr hc
    have h1 := tryCopyIgnoreMissing_ok fs md.logPath mgr.logPath hl
    have herr1 : copyStep fs md.logPath mgr.logPath md.errorLogPath ≠
        some FileEntry.accessError := copyStep_no_accessError _ _ _ _ herr
    have h2 := tryCopyIgnoreMissing_ok _ md.errorLogPath mgr.errorLogPath herr1
    have hc2 : copyStep (copyStep fs md.logPath mgr.logPath) md.errorLogPath
        mgr.errorLogPath md.logChunksPath ≠ some FileEntry.accessError :=
      copyStep_no_accessError _ _ _ _ (copyStep_no_accessError _ _ _ _ hc)
    have h3 := tryCopyIgnoreMissing_ok _ md.logChunksPath mgr.logChunksPath hc2
    refine ⟨copyStep (copyStep (copyStep fs md.logPath mgr.logPath) md.errorLogPath
      mgr.errorLogPath) md.logChunksPath mgr.logChunksPath, ?_⟩
    unfold saveCopyPhase
    simp only [h1, h2, h3]

/-- Witness for C2 (amended): with no source files at all, every copy is
skipped and `saveAsync` completes. -/
theorem saveAsync_error_handling_witness :
    ∃ fs', (saveAsync (fun _ => none)
      (mkOperationMetadataManager "proj" "op")
      { durationInSeconds := 1, logPath := "src.log", errorLogPath := "err.log",
        logChunksPath := "chunks.jsonl", cobuildContextId := none,
        cobuildRunnerId := none }).2 = Except.ok fs' :=
  (saveAsync_error_handling (fun _ => none)
      (mkOperationMetadataManager "proj" "op")
      { durationInSeconds := 1, logPath := "src.log", errorLogPath := "err.log",
        logChunksPath := "chunks.jsonl", cobuildContextId := none,
        cobuildRunnerId := none }).2
    (by intro h; cases h) (by intro h; cases h) (by intro h; cases h)

/-- Helper: the error-log copy phase completes whenever the stored
`error.log` does not raise a non-not-exist error. -/
theorem restoreErrorLogPhase_ok (fs : Fs) (mgr : OperationMetadataManager)
    (errorLogPath : String)
    (herr : fs mgr.errorLogPath ≠ some FileEntry.accessError) :
    ∃ fs', restoreErrorLogPhase fs mgr errorLogPath = Except.ok fs' := by
  unfold restoreErrorLogPhase copyFileAsync readFileAsync
  cases he : fs mgr.errorLogPath with
  | none => exact ⟨fs, rfl⟩
  | some entry =>
    cases entry with
    | content s => exact ⟨fs.update errorLogPath (.content s), rfl⟩
    | accessError => exact absurd he herr

/-- Helper: the error-log copy phase leaves the filesystem untouched when
the stored `error.log` is missing. -/
theorem restoreErrorLogPhase_missing (fs : Fs) (mgr : OperationMetadataManager)
    (errorLogPath : String) (herr : fs mgr.errorLogPath = none) :
    restoreErrorLogPhase fs mgr errorLogPath = Except.ok fs := by
  simp only [restoreErrorLogPhase, copyFileAsync, readFileAsync_none fs _ herr, if_true]

/-- C3: when the stored log-chunks file does not exist, restore falls back
to replaying the plain `all.log` to the terminal; when that file and the
stored `error.log` are also missing, `tryRestoreAsync` completes
successfully with nothing replayed and the filesystem untouched. -/
theorem tryRestoreAsync_missing_files (fs : Fs) (mgr : OperationMetadataManager)
    (parse : String → Option ITerminalChunk) (errorLogPath : String)
    (hchunks : fs mgr.logChunksPath = none) :
    (∀ s, fs mgr.logPath = some (FileEntry.content s) →
      fs mgr.errorLogPath ≠ some FileEntry.accessError →
      ∃ r, tryRestoreAsync fs mgr parse errorLogPath = Except.ok r ∧
        r.providerWrites = [] ∧ r.terminalWrites = [s]) ∧
    (fs mgr.logPath = none → fs mgr.errorLogPath = none →
      tryRestoreAsync fs mgr parse errorLogPath = Except.ok ⟨[], [], fs⟩) := by
  constructor
  · intro s hlog herr
    have hfallback : restoreFromLogFile fs mgr.logPath = Except.ok [s] := by
      simp only [restoreFromLogFile, readFileAsync_content fs _ s hlog]
    have hreplay : replayPhase fs mgr parse = Except.ok ([], [s]) := by
      simp only [replayPhase, readFileAsync_none fs _ hchunks, hfallback, if_true]
    obtain ⟨fs', hfs'⟩ := restoreErrorLogPhase_ok fs mgr errorLogPath herr
    refine ⟨⟨[], [s], fs'⟩, ?_, rfl, rfl⟩
    simp only [tryRestoreAsync, hreplay, hfs']
  · intro hlog herr
    have hfallback : restoreFromLogFile fs mgr.logPath = Except.ok [] := by
      simp only [restoreFromLogFile, readFileAsync_none fs _ hlog, if_true]
    have hreplay : replayPhase fs mgr parse = Except.ok ([], []) := by
      simp only [replayPhase, readFileAsync_none fs _ hchunks, hfallback, if_true]
    simp only [tryRestoreAsync, hreplay,
      restoreErrorLogPhase_missing fs mgr errorLogPath herr]

/-- Witness for C3: all three stored files missing — restore succeeds with
no output and no filesystem change. -/
theorem tryRestoreAsync_missing_files_witness :
    tryRestoreAsync (fun _ => none) (mkOperationMetadataManager "proj" "op")
      (fun _ => none) "err.log" =
      Except.ok ⟨[], [], fun _ => none⟩ :=
  (tryRestoreAsync_missing_files (fun _ => none)
    (mkOperationMetadataManager "proj" "op") (fun _ => none) "err.log" rfl).2 rfl rfl

/-- Helper for C1: the chunk-collection loop, when every line is empty or
parseable, returns all parsed chunks of the non-empty lines in file order. -/
theorem collectChunks_go_ok (parse : String → Option ITerminalChunk)
    (lines : List String) (acc : List ITerminalChunk)
    (h : ∀ l ∈ lines, l = "" ∨ (parse l).isSome) :
    collectChunks.go parse lines acc =
      Except.ok (acc.reverse ++ (lines.filter (fun l => !(l == ""))).filterMap parse) := by
  induction lines generalizing acc with
  | nil => simp [collectChunks.go]
  | cons a rest ih =>
    by_cases ha : a = ""
    · subst ha
      rw [collectChunks.go, if_pos rfl]
      rw [ih acc (fun l hl => h l (List.mem_cons_of_mem _ hl))]
      simp
    · rcases h a (List.mem_cons_self a rest) with h' | hsome
      · exact absurd h' ha
      · obtain ⟨c, hc⟩ := Option.isSome_iff_exists.mp hsome
        rw [collectChunks.go, if_neg ha]
        simp only [hc]
        rw [ih (c :: acc) (fun l hl => h l (List.mem_cons_of_mem _ hl))]
        have hbeq : (a == "") = false := by
          rw [Bool.eq_iff_iff]
          simp [ha]
        simp [List.filter_cons, hbeq, List.filterMap_cons, hc]

/-- C1: when the log-chunks file holds newline-separated JSON chunk records,
`tryRestoreAsync` replays every chunk of a non-empty line to the terminal
provider in file order, `Stderr` chunks at `error` severity and every other
chunk at `log` severity. -/
theorem tryRestoreAsync_replays_chunks (fs : Fs) (mgr : OperationMetadataManager)
    (parse : String → Option ITerminalChunk) (errorLogPath : String) (raw : String)
    (hfile : fs mgr.logChunksPath = some (FileEntry.content raw))
    (hlines : ∀ l ∈ splitLines raw, l = "" ∨ (parse l).isSome)
    (herr : fs mgr.errorLogPath ≠ some FileEntry.accessError) :
    ∃ r, tryRestoreAsync fs mgr parse errorLogPath = Except.ok r ∧
      r.providerWrites =
        (((splitLines raw).filter (fun l => !(l == ""))).filterMap parse).map
          (fun c => (c.text,
            if c.kind = TerminalChunkKind.Stderr then TerminalProviderSeverity.error
            else TerminalProviderSeverity.log)) ∧
      r.terminalWrites = [] := by
  have hcollect : collectChunks parse raw =
      Except.ok (((splitLines raw).filter (fun l => !(l == ""))).filterMap parse) := by
    unfold collectChunks
    rw [collectChunks_go_ok parse _ [] hlines]
    rfl
  have hreplay : replayPhase fs mgr parse =
      Except.ok (replayChunks
        (((splitLines raw).filter (fun l => !(l == ""))).filterMap parse), []) := by
    simp only [replayPhase, readFileAsync_content fs _ raw hfile, hcollect]
  obtain ⟨fs', hfs'⟩ := restoreErrorLogPhase_ok fs mgr errorLogPath herr
  refine ⟨⟨_, [], fs'⟩, ?_, rfl, rfl⟩
  simp only [tryRestoreAsync, hreplay, hfs']
  rfl

/-- The filesystem of the C1 witness: only the log-chunks file exists. -/
def chunkWitnessFs : Fs :=
  fun p => if p = (mkOperationMetadataManager "proj" "op").logChunksPath
    then some (FileEntry.content "O-hi\nE-oops\n") else none

/-- The `JSON.parse` stand-in of the C1 witness. -/
def chunkWitnessParse : String → Option ITerminalChunk :=
  fun l => if l = "O-hi" then some ⟨TerminalChunkKind.Stdout, "hi"⟩
    else if l = "E-oops" then some ⟨TerminalChunkKind.Stderr, "oops"⟩ else none

/-- Witness for C1: a concrete two-line chunk file, one stdout and one
stderr chunk, replayed in order with the severity mapping. -/
theorem tryRestoreAsync_replays_chunks_witness :
    ∃ r, tryRestoreAsync chunkWitnessFs (mkOperationMetadataManager "proj" "op")
        chunkWitnessParse "err.log" = Except.ok r ∧
      r.providerWrites =
        (((splitLines "O-hi\nE-oops\n").filter (fun l => !(l == ""))).filterMap
          chunkWitnessParse).map
          (fun c => (c.text,
            if c.kind = TerminalChunkKind.Stderr then TerminalProviderSeverity.error
            else TerminalProviderSeverity.log)) ∧
      r.terminalWrites = [] :=
  tryRestoreAsync_replays_chunks chunkWitnessFs (mkOperationMetadataManager "proj" "op")
    chunkWitnessParse "err.log" "O-hi\nE-oops\n" rfl (by decide) (by decide)

/-- The value a destination path holds after one `saveAsync` copy: the
source's content when the source is readable, the destination's previous
value otherwise (a missing source is skipped). -/
def copiedValue (src old : Option FileEntry) : Option FileEntry :=
  match src with
  | some (.content s) => some (.content s)
  | _ => old

/-- C5: `saveAsync` copies the files at `logPath`, `errorLogPath` and
`logChunksPath` into the metadata folder as `all.log`, `error.log` and
`log-chunks.jsonl` respectively; a missing source is skipped without
affecting the other copies, and no other path changes. (The hypotheses
keep the caller's source files distinct from the destination files and
free of non-not-exist read errors.) -/
theorem saveAsync_copies_log_files (projectFolder logFilenameIdentifier : String)
    (fs : Fs) (md : IOperationMetaData)
    (hl : fs md.logPath ≠ some FileEntry.accessError)
    (he : fs md.errorLogPath ≠ some FileEntry.accessError)
    (hc : fs md.logChunksPath ≠ some FileEntry.accessError)
    (heL : md.errorLogPath ≠
      (mkOperationMetadataManager projectFolder logFilenameIdentifier).logPath)
    (hcL : md.logChunksPath ≠
      (mkOperationMetadataManager projectFolder logFilenameIdentifier).logPath)
    (hcE : md.logChunksPath ≠
      (mkOperationMetadataManager projectFolder logFilenameIdentifier).errorLogPath) :
    ∃ fs', (saveAsync fs (mkOperationMetadataManager projectFolder logFilenameIdentifier)
        md).2 = Except.ok fs' ∧
      fs' (mkOperationMetadataManager projectFolder logFilenameIdentifier).logPath =
        copiedValue (fs md.logPath)
          (fs (mkOperationMetadataManager projectFolder logFilenameIdentifier).logPath) ∧
      fs' (mkOperationMetadataManager projectFolder logFilenameIdentifier).errorLogPath =
        copiedValue (fs md.errorLogPath)
          (fs (mkOperationMetadataManager projectFolder logFilenameIdentifier).errorLogPath) ∧
      fs' (mkOperationMetadataManager projectFolder logFilenameIdentifier).logChunksPath =
        copiedValue (fs md.logChunksPath)
          (fs (mkOperationMetadataManager projectFolder logFilenameIdentifier).logChunksPath) ∧
      ∀ q, q ≠ (mkOperationMetadataManager projectFolder logFilenameIdentifier).logPath →
        q ≠ (mkOperationMetadataManager projectFolder logFilenameIdentifier).errorLogPath →
        q ≠ (mkOperationMetadataManager projectFolder logFilenameIdentifier).logChunksPath →
        fs' q = fs q := by
  set m : OperationMetadataManager :=
    mkOperationMetadataManager projectFolder logFilenameIdentifier with hm
  have hLdef : m.logPath = (projectFolder ++ "/" ++ m.metadataFolder) ++ "/all.log" := by
    rw [hm]; rfl
  have hEdef : m.errorLogPath =
      (projectFolder ++ "/" ++ m.metadataFolder) ++ "/error.log" := by
    rw [hm]; rfl
  have hCdef : m.logChunksPath =
      (projectFolder ++ "/" ++ m.metadataFolder) ++ "/log-chunks.jsonl" := by
    rw [hm]; rfl
  have hLE : m.logPath ≠ m.errorLogPath := by
    rw [hLdef, hEdef]; exact append_ne_of_length_ne _ _ _ (by decide)
  have hLC : m.logPath ≠ m.logChunksPath := by
    rw [hLdef, hCdef]; exact append_ne_of_length_ne _ _ _ (by decide)
  have hEC : m.errorLogPath ≠ m.logChunksPath := by
    rw [hEdef, hCdef]; exact append_ne_of_length_ne _ _ _ (by decide)
  have h1 := tryCopyIgnoreMissing_ok fs md.logPath m.logPath hl
  have hfs1e : copyStep fs md.logPath m.logPath md.errorLogPath = fs md.errorLogPath :=
    copyStep_other fs md.logPath m.logPath md.errorLogPath heL
  have he1 : copyStep fs md.logPath m.logPath md.errorLogPath ≠
      some FileEntry.accessError := by rw [hfs1e]; exact he
  have h2 := tryCopyIgnoreMissing_ok _ md.errorLogPath m.errorLogPath he1
  have hfs2c : copyStep (copyStep fs md.logPath m.logPath) md.errorLogPath m.errorLogPath
      md.logChunksPath = fs md.logChunksPath := by
    rw [copyStep_other _ md.errorLogPath m.errorLogPath md.logChunksPath hcE]
    exact copyStep_other fs md.logPath m.logPath md.logChunksPath hcL
  have hc2 : copyStep (copyStep fs md.logPath m.logPath) md.errorLogPath m.errorLogPath
      md.logChunksPath ≠ some FileEntry.accessError := by rw [hfs2c]; exact hc
  have h3 := tryCopyIgnoreMissing_ok _ md.logChunksPath m.logChunksPath hc2
  refine ⟨copyStep (copyStep (copyStep fs md.logPath m.logPath) md.errorLogPath
    m.errorLogPath) md.logChunksPath m.logChunksPath, ?_, ?_, ?_, ?_, ?_⟩
  · show saveCopyPhase fs m md = _
    simp only [saveCopyPhase, h1, h2, h3]
  · rw [copyStep_other _ md.logChunksPath m.logChunksPath m.logPath hLC]
    rw [copyStep_other _ md.errorLogPath m.errorLogPath m.logPath hLE]
    rw [copyStep_dst fs md.logPath m.logPath]
    rfl
  · rw [copyStep_other _ md.logChunksPath m.logChunksPath m.errorLogPath hEC]
    rw [copyStep_dst _ md.errorLogPath m.errorLogPath]
    rw [hfs1e, copyStep_other fs md.logPath m.logPath m.errorLogPath (Ne.symm hLE)]
    rfl
  · rw [copyStep_dst _ md.logChunksPath m.logChunksPath]
    rw [hfs2c]
    rw [copyStep_other _ md.errorLogPath m.errorLogPath m.logChunksPath (Ne.symm hEC)]
    rw [copyStep_other fs md.logPath m.logPath m.logChunksPath (Ne.symm hLC)]
    rfl
  · intro q hqL hqE hqC
    rw [copyStep_other _ md.logChunksPath m.logChunksPath q hqC]
    rw [copyStep_other _ md.errorLogPath m.errorLogPath q hqE]
    exact copyStep_other fs md.logPath m.logPath q hqL

/-- The source filesystem of the C5 witness: the log and log-chunks source
files exist, the error-log source is missing. -/
def saveWitnessFs : Fs :=
  fun p => if p = "log.txt" then some (FileEntry.content "A")
    else if p = "chunks.txt" then some (FileEntry.content "C") else none

/-- The metadata record of the C5 witness. -/
def saveWitnessMd : IOperationMetaData :=
  { durationInSeconds := 2, logPath := "log.txt", errorLogPath := "errlog.txt",
    logChunksPath := "chunks.txt", cobuildContextId := none, cobuildRunnerId := none }

/-- Witness for C5: two sources copied, the missing error-log source
skipped without affecting them. -/
theorem saveAsync_copies_log_files_witness :
    ∃ fs', (saveAsync saveWitnessFs (mkOperationMetadataManager "proj" "op")
        saveWitnessMd).2 = Except.ok fs' ∧
      fs' (mkOperationMetadataManager "proj" "op").logPath =
        copiedValue (saveWitnessFs saveWitnessMd.logPath)
          (saveWitnessFs (mkOperationMetadataManager "proj" "op").logPath) ∧
      fs' (mkOperationMetadataManager "proj" "op").errorLogPath =
        copiedValue (saveWitnessFs saveWitnessMd.errorLogPath)
          (saveWitnessFs (mkOperationMetadataManager "proj" "op").errorLogPath) ∧
      fs' (mkOperationMetadataManager "proj" "op").logChunksPath =
        copiedValue (saveWitnessFs saveWitnessMd.logChunksPath)
          (saveWitnessFs (mkOperationMetadataManager "proj" "op").logChunksPath) ∧
      ∀ q, q ≠ (mkOperationMetadataManager "proj" "op").logPath →
        q ≠ (mkOperationMetadataManager "proj" "op").errorLogPath →
        q ≠ (mkOperationMetadataManager "proj" "op").logChunksPath →
        fs' q = saveWitnessFs q :=
  saveAsync_copies_log_files "proj" "op" saveWitnessFs saveWitnessMd
    (by decide) (by decide) (by decide) (by decide) (by decide) (by decide)

theorem SchedState.set_self (st : SchedState) (i : Nat) (s : OperationStatus) :
    st.set i s i = s := by
  simp [SchedState.set]

theorem SchedState.set_other (st : SchedState) (i j : Nat) (s : OperationStatus)
    (h : j ≠ i) : st.set i s j = st j := by
  simp [SchedState.set, h]

theorem terminalNonBlocking_iff (s : OperationStatus) :
    terminalNonBlocking s = true ↔
      (s = OperationStatus.Success ∨ s = OperationStatus.SuccessWithWarning ∨
        s = OperationStatus.FromCache ∨ s = OperationStatus.NoOp ∨
        s = OperationStatus.Skipped) := by
  cases s <;> simp [terminalNonBlocking]

/-- The dispatch invariant: every `Executing` operation has all its
dependencies in a terminal non-blocking state. -/
def DispatchInvariant (deps : Nat → List Nat) (st : SchedState) : Prop :=
  ∀ i, st i = OperationStatus.Executing →
    ∀ d ∈ deps i, terminalNonBlocking (st d) = true

theorem dispatchInvariant_step (deps : Nat → List Nat) (st st' : SchedState)
    (hstep : SchedStep deps st st') (ih : DispatchInvariant deps st) :
    DispatchInvariant deps st' := by
  have hset_active : ∀ (j : Nat) (snew : OperationStatus),
      (st j = OperationStatus.Ready ∨ st j = OperationStatus.Queued ∨
        st j = OperationStatus.Executing) →
      snew ≠ OperationStatus.Executing →
      DispatchInvariant deps (st.set j snew) := by
    intro j snew hactive hne i hi d hd
    by_cases hij : i = j
    · subst hij
      rw [SchedState.set_self] at hi
      exact absurd hi hne
    · rw [SchedState.set_other st j i _ hij] at hi
      have hterm := ih i hi d hd
      by_cases hdj : d = j
      · subst hdj
        rcases hactive with h' | h' | h' <;> rw [h'] at hterm <;> cases hterm
      · rw [SchedState.set_other st j d _ hdj]
        exact hterm
  cases hstep with
  | queue j hj =>
    exact hset_active j _ (Or.inl hj) (by decide)
  | dispatch j hj hguard =>
    intro i hi d hd
    by_cases hij : i = j
    · have hguard' := hguard d (hij ▸ hd)
      by_cases hdj : d = j
      · rw [hdj, hj] at hguard'
        exact absurd hguard' (by decide)
      · rw [SchedState.set_other st j d _ hdj]
        exact hguard'
    · rw [SchedState.set_other st j i _ hij] at hi
      have hterm := ih i hi d hd
      by_cases hdj : d = j
      · rw [hdj, hj] at hterm
        exact absurd hterm (by decide)
      · rw [SchedState.set_other st j d _ hdj]
        exact hterm
  | finish j outcome hj houtcome =>
    refine hset_active j outcome (Or.inr (Or.inr hj)) ?_
    rcases houtcome with h' | h' | h' <;> subst h' <;> decide
  | resolveWithoutExecuting j outcome hj houtcome =>
    refine hset_active j outcome ?_ ?_
    · rcases hj with h' | h'
      · exact Or.inl h'
      · exact Or.inr (Or.inl h')
    · rcases houtcome with h' | h' <;> subst h' <;> decide
  | block j d0 hj hd0 hfail =>
    refine hset_active j _ ?_ (by decide)
    rcases hj with h' | h'
    · exact Or.inl h'
    · exact Or.inr (Or.inl h')
  | cancel j hj =>
    refine hset_active j _ ?_ (by decide)
    rcases hj with h' | h'
    · exact Or.inl h'
    · exact Or.inr (Or.inl h')

theorem dispatchInvariant_reachable (deps : Nat → List Nat) (st : SchedState)
    (h : SchedReachable deps st) : DispatchInvariant deps st := by
  induction h with
  | init st hinit =>
    intro i hi
    rcases hinit i with h' | h' <;> rw [h'] at hi <;> cases hi
  | step hreach hstep ih =>
    exact dispatchInvariant_step deps _ _ hstep ih

/-- C6: in every scheduler state reachable from an initial state, an
operation is `Executing` only if every one of its dependencies has reached
a terminal non-blocking status: `Success`, `SuccessWithWarning`,
`FromCache`, `NoOp` or `Skipped`. -/
theorem executing_implies_deps_terminal (deps : Nat → List Nat) (st : SchedState)
    (h : SchedReachable deps st) (i : Nat) (hi : st i = OperationStatus.Executing)
    (d : Nat) (hd : d ∈ deps i) :
    st d = OperationStatus.Success ∨ st d = OperationStatus.SuccessWithWarning ∨
    st d = OperationStatus.FromCache ∨ st d = OperationStatus.NoOp ∨
    st d = OperationStatus.Skipped :=
  (terminalNonBlocking_iff (st d)).mp (dispatchInvariant_reachable deps st h i hi d hd)

/-- The dependency function of the C6 witness: operation 1 depends on
operation 0. -/
def schedWitnessDeps : Nat → List Nat := fun i => if i = 1 then [0] else []

/-- The initial state of the C6 witness run: both operations `Ready`. -/
def schedW0 : SchedState := fun _ => OperationStatus.Ready

/-- Intermediate states of the C6 witness run. -/
def schedW1 : SchedState := SchedState.set schedW0 0 OperationStatus.Queued

def schedW2 : SchedState := SchedState.set schedW1 0 OperationStatus.Executing

def schedW3 : SchedState := SchedState.set schedW2 0 OperationStatus.Success

def schedW4 : SchedState := SchedState.set schedW3 1 OperationStatus.Queued

/-- The final state of the C6 witness run: operation 0 finished `Success`,
operation 1 is `Executing`. -/
def schedWitnessState : SchedState := SchedState.set schedW4 1 OperationStatus.Executing

theorem schedWitnessState_reachable :
    SchedReachable schedWitnessDeps schedWitnessState := by
  have r0 : SchedReachable schedWitnessDeps schedW0 :=
    SchedReachable.init schedW0 (fun i => Or.inl rfl)
  have s1 : SchedStep schedWitnessDeps schedW0 schedW1 := SchedStep.queue 0 rfl
  have s2 : SchedStep schedWitnessDeps schedW1 schedW2 := by
    refine SchedStep.dispatch 0 rfl ?_
    intro d hd
    simp [schedWitnessDeps] at hd
  have s3 : SchedStep schedWitnessDeps schedW2 schedW3 :=
    SchedStep.finish 0 OperationStatus.Success rfl (Or.inl rfl)
  have s4 : SchedStep schedWitnessDeps schedW3 schedW4 := SchedStep.queue 1 rfl
  have s5 : SchedStep schedWitnessDeps schedW4 schedWitnessState := by
    refine SchedStep.dispatch 1 rfl ?_
    intro d hd
    simp [schedWitnessDeps] at hd
    subst hd
    rfl
  exact SchedReachable.step (SchedReachable.step (SchedReachable.step
    (SchedReachable.step (SchedReachable.step r0 s1) s2) s3) s4) s5

/-- Witness for C6: in the concrete reachable state where operation 1 is
executing, its dependency 0 is in a terminal non-blocking status. -/
theorem executing_implies_deps_terminal_witness :
    schedWitnessState 0 = OperationStatus.Success ∨
    schedWitnessState 0 = OperationStatus.SuccessWithWarning ∨
    schedWitnessState 0 = OperationStatus.FromCache ∨
    schedWitnessState 0 = OperationStatus.NoOp ∨
    schedWitnessState 0 = OperationStatus.Skipped :=
  executing_implies_deps_terminal schedWitnessDeps schedWitnessState
    schedWitnessState_reachable 1 (by rfl) 0 (by simp [schedWitnessDeps])

end Rushstack
